import Mathlib

/-!
Verification of the training orchestration in `train.py` of
open-unmix-pytorch.

The development shallowly embeds the epoch loop of `train.py`
(lines 185-240), the normalization-scale clamp (`safe_input_scale`,
lines 126-129), the validation pass (`valid`, lines 172-182), the
learning-rate scheduler construction (lines 149-153), and state machines
for the early-stopping monitor and the running-mean meter.

Real numbers of the program are modelled as rationals (`ℚ`); the float
infinity used by python as the initial best is modelled as `none : Option ℚ`.
-/

namespace OUX

/-- Modelled from the spec: `utils.AverageMeter` is imported by `train.py`
but its source file is not part of the snapshot.  Spec §4.2 gives the
contract: `update(value, weight=1)` accumulates `sum += value*weight;
count += weight`, and `average` is `sum / count`. -/
structure AverageMeter where
  sum : ℚ
  count : ℕ
deriving DecidableEq

/-- Fresh meter (`reset()` / zero state). -/
def AverageMeter.empty : AverageMeter := ⟨0, 0⟩

/-- `update(value, weight)` per spec §4.2. -/
def AverageMeter.update (m : AverageMeter) (value : ℚ) (weight : ℕ) : AverageMeter :=
  { sum := m.sum + value * (weight : ℚ), count := m.count + weight }

/-- The `average` property: `sum / count` (in `ℚ`, division by zero is 0). -/
def AverageMeter.avg (m : AverageMeter) : ℚ := m.sum / (m.count : ℚ)

/-- Strict-inequality improvement test against the best-so-far value;
`none` represents the initial `+infinity`, which every value improves on. -/
def improves (c : ℚ) : Option ℚ → Bool
  | none => true
  | some b => decide (c < b)

/-- The python comparison `valid_loss == es.best` from `train.py` line 206/215
(`es.best` is a float once `step` has run at least once). -/
def eqBest (c : ℚ) : Option ℚ → Bool
  | none => false
  | some b => decide (c = b)

/-- Modelled from the spec: `utils.EarlyStopping` is imported by `train.py`
but its source file is not part of the snapshot.  Spec §4.3 gives the state:
`best` (init `+infinity`, here `none`), `counter` (init 0), `patience`. -/
structure EarlyStopping where
  best : Option ℚ
  counter : ℕ
  patience : ℕ
deriving DecidableEq

/-- `EarlyStopping(patience=p)` initial state. -/
def EarlyStopping.start (p : ℕ) : EarlyStopping := ⟨none, 0, p⟩

/-- Modelled from the spec: transition of §4.3.  `step(current_loss)`
returns the new state and the halt flag: on strict improvement reset the
counter and record the new best and continue; otherwise increment the
counter and halt exactly when it reaches `patience`. -/
def EarlyStopping.step (st : EarlyStopping) (c : ℚ) : EarlyStopping × Bool :=
  if improves c st.best then
    ({ st with best := some c, counter := 0 }, false)
  else
    ({ st with counter := st.counter + 1 }, decide (st.patience ≤ st.counter + 1))

/-- Modelled from the spec: the plateau learning-rate scheduler of §4.5
step 3 ("if validation loss fails to improve over a configured internal
window, multiply the learning rate by a decay factor"); the improvement
test is the same strict inequality, the window is `patience` non-improving
epochs, and a decay resets the bad-epoch count.  `decayed` records whether
at least one decay has happened. -/
structure ReduceLROnPlateau where
  best : Option ℚ
  numBad : ℕ
  patience : ℕ
  lr : ℚ
  gamma : ℚ
  decayed : Bool
deriving DecidableEq

/-- Scheduler as constructed in `train.py` lines 149-153: its patience is
`args.patience // 2` and its factor is `args.lr_decay_gamma`. -/
def ReduceLROnPlateau.start (patience : ℕ) (lr gamma : ℚ) : ReduceLROnPlateau :=
  ⟨none, 0, patience / 2, lr, gamma, false⟩

/-- Second half of the scheduler step: once the bad-epoch count exceeds
the window, multiply the learning rate by the decay factor. -/
def ReduceLROnPlateau.decayCheck (s1 : ReduceLROnPlateau) : ReduceLROnPlateau :=
  if s1.patience < s1.numBad then
    { s1 with lr := s1.lr * s1.gamma, numBad := 0, decayed := true }
  else s1

/-- Modelled from the spec: `scheduler.step(valid_loss)`.  Improvement
resets the bad-epoch count; otherwise it grows, and once it exceeds the
window the learning rate is multiplied by the decay factor. -/
def ReduceLROnPlateau.step (s : ReduceLROnPlateau) (c : ℚ) : ReduceLROnPlateau :=
  ReduceLROnPlateau.decayCheck
    (if improves c s.best then { s with best := some c, numBad := 0 }
     else { s with numBad := s.numBad + 1 })

/-- `np.max` over a vector modelled as a list (total on nonempty lists,
matching the use on the fitted scale vector). -/
def npMax : List ℚ → ℚ
  | [] => 0
  | a :: as => as.foldl max a

/-- `train.py` lines 126-129:
`safe_input_scale = np.maximum(input_scaler.scale_, 1e-4*np.max(input_scaler.scale_))`. -/
def safe_input_scale (scale : List ℚ) : List ℚ :=
  scale.map (fun s => max s (1 / 10000 * npMax scale))

/-- One step of the running minimum (`none` = nothing observed yet). -/
def combineMin (b : Option ℚ) (c : ℚ) : Option ℚ :=
  match b with
  | none => some c
  | some b0 => some (min b0 c)

/-- Running minimum of a list of observed losses. -/
def minSoFar (l : List ℚ) : Option ℚ := l.foldl combineMin none

/-- Order on `Option ℚ` with `none` as `+infinity`, as a boolean. -/
def optLe (a b : Option ℚ) : Bool :=
  match a, b with
  | _, none => true
  | none, some _ => false
  | some x, some y => decide (x ≤ y)

/-- `train.py` lines 172-182, the meter accumulated by `valid()`: for each
batch `(x, y)` compute `Y_hat = unmix(x)`, `Y = unmix.transform(y)`,
`loss = F.mse_loss(Y_hat, Y)` and `losses.update(loss.item(), Y.size(1))`.
The model is abstract: `forward` is `unmix.__call__`, `transform` is
`unmix.transform`, `mseLoss` the loss, `size1` is `.size(1)`.  The pass
never produces a new model state: parameters are read, not written. -/
def validMeter {M A S : Type} (forward : M → A → S) (transform : M → A → S)
    (mseLoss : S → S → ℚ) (size1 : S → ℕ) (m : M) (batches : List (A × A)) :
    AverageMeter :=
  batches.foldl
    (fun meter b =>
      meter.update (mseLoss (forward m b.1) (transform m b.2))
        (size1 (transform m b.2)))
    AverageMeter.empty

/-- `valid()` returns `losses.avg`. -/
def valid {M A S : Type} (forward : M → A → S) (transform : M → A → S)
    (mseLoss : S → S → ℚ) (size1 : S → ℕ) (m : M) (batches : List (A × A)) : ℚ :=
  (validMeter forward transform mseLoss size1 m batches).avg

/-- Per-epoch observable inputs to the orchestration loop: the epoch-mean
training loss returned by `train()`, the epoch-mean validation loss
returned by `valid()`, and the measured wall time of the epoch. -/
structure EpochIn where
  tl : ℚ
  vl : ℚ
  dt : ℚ
deriving DecidableEq

/-- The checkpoint dictionary of `train.py` lines 209-214 (the two opaque
state blobs are carried by the parameter state of the loop, not the record). -/
structure Checkpoint where
  epoch : ℕ
  best_loss : Option ℚ
deriving DecidableEq

/-- The `params` metadata dictionary of `train.py` lines 222-231 (minus the
immutable `args`/`rate` fields, which never change across epochs). -/
structure RunMeta where
  epochs_trained : ℕ
  best_loss : Option ℚ
  best_epoch : ℕ
  train_loss_history : List ℚ
  valid_loss_history : List ℚ
  train_time_history : List ℚ
deriving DecidableEq

/-- Default checkpoint entry used by `List.getD`. -/
def cdef : Checkpoint × Bool := (⟨0, none⟩, false)

/-- Default metadata entry used by `List.getD`. -/
def mdef : RunMeta := ⟨0, none, 0, [], [], []⟩

/-- Events of the epoch loop, in their temporal order inside one epoch. -/
inductive Ev
  | trainPass (e : ℕ)
  | validPass (e : ℕ)
  | schedStep (e : ℕ)
  | monitorStep (e : ℕ)
  | persist (e : ℕ)
deriving DecidableEq

/-- The five steps of one epoch, in the order `train.py` runs them. -/
def evBlock (e : ℕ) : List Ev :=
  [Ev.trainPass e, Ev.validPass e, Ev.schedStep e, Ev.monitorStep e, Ev.persist e]

/-- State of the epoch loop of `train.py` lines 185-240.  `params` is the
abstract model/optimizer parameter state (mutated only by the train pass);
`checkpoints` records every `save_checkpoint` call with its `is_best`
flag; `bestWrites` records the epochs on which the "best" artifact was
rewritten (spec §4.4: rewritten exactly when `is_best` is true);
`metaWrites` records every `output.json` write; `trace` records the
ordered events. -/
structure LoopState (P : Type) where
  params : P
  sched : ReduceLROnPlateau
  es : EarlyStopping
  best_epoch : ℕ
  train_losses : List ℚ
  valid_losses : List ℚ
  train_times : List ℚ
  checkpoints : List (Checkpoint × Bool)
  bestWrites : List ℕ
  metaWrites : List RunMeta
  trace : List Ev
  stopped : Bool

/-- Loop state before the first epoch (`train.py` lines 149-190). -/
def startState {P : Type} (p0 : P) (patience : ℕ) (lr gamma : ℚ) : LoopState P :=
  { params := p0
    sched := ReduceLROnPlateau.start patience lr gamma
    es := EarlyStopping.start patience
    best_epoch := 0
    train_losses := []
    valid_losses := []
    train_times := []
    checkpoints := []
    bestWrites := []
    metaWrites := []
    trace := []
    stopped := false }

/-- One iteration of the `for epoch in t:` body, `train.py` lines 192-240:
train pass (mutates `params`, yields `inp.tl`), validation pass (yields
`inp.vl`), `scheduler.step(valid_loss)`, history appends, `es.step`,
`best_epoch` update, `save_checkpoint` with `epoch + 1` and
`is_best = (valid_loss == es.best)`, `output.json` write with
`epochs_trained = epoch` and the `train_times` list as it is *before* this
elapsed time of this epoch is appended, then the append of that time. -/
def epochStep {P : Type} (tp : ℕ → P → P) (st : LoopState P) (e : ℕ)
    (inp : EpochIn) : LoopState P :=
  let params := tp e st.params
  let sched := st.sched.step inp.vl
  let train_losses := st.train_losses ++ [inp.tl]
  let valid_losses := st.valid_losses ++ [inp.vl]
  let esr := st.es.step inp.vl
  let isBest := eqBest inp.vl esr.1.best
  let best_epoch := if isBest then e else st.best_epoch
  let ckpt : Checkpoint := { epoch := e + 1, best_loss := esr.1.best }
  let meta : RunMeta :=
    { epochs_trained := e
      best_loss := esr.1.best
      best_epoch := best_epoch
      train_loss_history := train_losses
      valid_loss_history := valid_losses
      train_time_history := st.train_times }
  { params := params
    sched := sched
    es := esr.1
    best_epoch := best_epoch
    train_losses := train_losses
    valid_losses := valid_losses
    train_times := st.train_times ++ [inp.dt]
    checkpoints := st.checkpoints ++ [(ckpt, isBest)]
    bestWrites := if isBest then st.bestWrites ++ [e] else st.bestWrites
    metaWrites := st.metaWrites ++ [meta]
    trace := st.trace ++ evBlock e
    stopped := esr.2 }

/-- The epoch loop from epoch `e` on: run an epoch, then continue unless
the monitor signalled halt (`if stop: break`, persistence already done). -/
def runFrom {P : Type} (tp : ℕ → P → P) :
    LoopState P → ℕ → List EpochIn → LoopState P
  | st, _, [] => st
  | st, e, inp :: rest =>
    let st1 := epochStep tp st e inp
    if st1.stopped then st1 else runFrom tp st1 (e + 1) rest

/-- The whole run: `for epoch in trange(1, epochs + 1)` over the given
per-epoch observations. -/
def run {P : Type} (tp : ℕ → P → P) (p0 : P) (patience : ℕ) (lr gamma : ℚ)
    (inputs : List EpochIn) : LoopState P :=
  runFrom tp (startState p0 patience lr gamma) 1 inputs

/-- Fold of `AverageMeter.update` over a list of (value, weight) pairs,
starting from the reset state. -/
def meterFold (l : List (ℚ × ℕ)) : AverageMeter :=
  l.foldl (fun m p => m.update p.1 p.2) AverageMeter.empty

/-- Trivial train pass on a unit parameter state, for concrete runs. -/
def tpUnit : ℕ → Unit → Unit := fun _ u => u

/-- A concrete decay factor (0.1, the source default). -/
def g1 : ℚ := mkRat 1 10

/-- One improving epoch. -/
def insOne : List EpochIn := [⟨1, 1, 1⟩]

/-- Two epochs whose validation losses tie. -/
def insTie : List EpochIn := [⟨1, 1, 1⟩, ⟨1, 1, 1⟩]

/-- Two strictly improving epochs. -/
def insTwo : List EpochIn := [⟨1, 1, 1⟩, ⟨1, mkRat 1 2, 1⟩]

/-- The scenario given in the spec: validation losses 1.0, 0.9, 0.95, 0.95, 0.95
(with a sixth candidate epoch available, which must not run). -/
def insScenario : List EpochIn :=
  [⟨1, 1, 1⟩, ⟨1, mkRat 9 10, 1⟩, ⟨1, mkRat 19 20, 1⟩,
   ⟨1, mkRat 19 20, 1⟩, ⟨1, mkRat 19 20, 1⟩, ⟨1, mkRat 19 20, 1⟩]

/-- Everything the claims need to know about a reachable loop state: the
bookkeeping lists stay in lockstep, the best of the monitor is the running
minimum of the observed validation losses, every persisted checkpoint and
metadata record has the recorded shape, the "best" artifact writes are
exactly the flagged epochs, the trace is the per-epoch block sequence, the
parameters are the fold of the train passes only, and a halt implies the
scheduler has already decayed. -/
structure Inv {P : Type} (pat : ℕ) (tp : ℕ → P → P) (p0 : P)
    (st : LoopState P) : Prop where
  len_tl : st.train_losses.length = st.valid_losses.length
  len_tt : st.train_times.length = st.valid_losses.length
  len_ck : st.checkpoints.length = st.valid_losses.length
  len_mw : st.metaWrites.length = st.valid_losses.length
  best_eq : st.es.best = minSoFar st.valid_losses
  pat_eq : st.es.patience = pat
  ck : ∀ j, j < st.valid_losses.length →
    (st.checkpoints.getD j cdef).1.epoch = j + 2 ∧
    (st.checkpoints.getD j cdef).1.best_loss =
      minSoFar (st.valid_losses.take (j + 1)) ∧
    (st.checkpoints.getD j cdef).2 =
      eqBest (st.valid_losses.getD j 0) (minSoFar (st.valid_losses.take (j + 1)))
  mw : ∀ j, j < st.valid_losses.length →
    (st.metaWrites.getD j mdef).epochs_trained = j + 1 ∧
    (st.metaWrites.getD j mdef).train_loss_history.length = j + 1 ∧
    (st.metaWrites.getD j mdef).valid_loss_history.length = j + 1 ∧
    (st.metaWrites.getD j mdef).train_time_history.length = j
  bw : st.bestWrites = (List.range st.checkpoints.length).filterMap
    (fun j => if (st.checkpoints.getD j cdef).2 then some (j + 1) else none)
  tr : st.trace = ((List.range' 1 st.valid_losses.length).map evBlock).flatten
  pa : st.params =
    (List.range' 1 st.valid_losses.length).foldl (fun p e => tp e p) p0
  halted : st.stopped = true → st.sched.decayed = true
  coupl : st.sched.decayed = false →
    st.sched.best = st.es.best ∧ st.sched.numBad = st.es.counter
  spat : st.sched.patience = pat / 2

/-! ### Basic lemmas about the monitor, the scheduler and running minima -/

theorem es_step_best (st : EarlyStopping) (c : ℚ) :
    ((EarlyStopping.step st c).1).best = combineMin st.best c := by
  cases hb : st.best with
  | none => simp [EarlyStopping.step, improves, hb, combineMin]
  | some b =>
    by_cases h : c < b
    · simp [EarlyStopping.step, improves, hb, h, combineMin, min_eq_right (le_of_lt h)]
    · simp [EarlyStopping.step, improves, hb, h, combineMin, min_eq_left (le_of_not_lt h)]

theorem es_step_patience (st : EarlyStopping) (c : ℚ) :
    ((EarlyStopping.step st c).1).patience = st.patience := by
  unfold EarlyStopping.step
  split <;> rfl

theorem es_step_best_nonincreasing (st : EarlyStopping) (c : ℚ) :
    optLe ((EarlyStopping.step st c).1.best) st.best = true := by
  rw [es_step_best]
  cases st.best with
  | none => simp [combineMin, optLe]
  | some b => simp [combineMin, optLe, min_le_left]

theorem minSoFar_append (l : List ℚ) (c : ℚ) :
    minSoFar (l ++ [c]) = combineMin (minSoFar l) c := by
  simp [minSoFar, List.foldl_append]

theorem foldl_combine_some (l : List ℚ) (b0 : ℚ) :
    l.foldl combineMin (some b0) = some (l.foldl min b0) := by
  induction l generalizing b0 with
  | nil => rfl
  | cons d ds ih => simp [combineMin, ih]

theorem le_foldl_min (l : List ℚ) (b c : ℚ) :
    c ≤ l.foldl min b ↔ c ≤ b ∧ ∀ v ∈ l, c ≤ v := by
  induction l generalizing b with
  | nil => simp
  | cons d ds ih =>
    simp only [List.foldl_cons, ih, le_min_iff, List.mem_cons]
    constructor
    · rintro ⟨⟨h1, h2⟩, h3⟩
      exact ⟨h1, fun v hv => hv.elim (fun hv => hv ▸ h2) (h3 v)⟩
    · rintro ⟨h1, h2⟩
      exact ⟨⟨h1, h2 d (Or.inl rfl)⟩, fun v hv => h2 v (Or.inr hv)⟩

theorem eqBest_minSoFar_iff (l : List ℚ) (c : ℚ) :
    eqBest c (minSoFar (l ++ [c])) = true ↔ ∀ v ∈ l, c ≤ v := by
  rw [minSoFar_append]
  cases l with
  | nil => simp [minSoFar, combineMin, eqBest]
  | cons d ds =>
    have hm : minSoFar (d :: ds) = some (ds.foldl min d) := by
      simp [minSoFar, combineMin, foldl_combine_some]
    rw [hm]
    simp only [combineMin, eqBest, decide_eq_true_eq, List.mem_cons]
    constructor
    · intro h v hv
      have hle : c ≤ ds.foldl min d := h ▸ min_le_left _ _
      rcases (le_foldl_min ds d c).1 hle with ⟨h1, h2⟩
      exact hv.elim (fun hv => hv ▸ h1) (h2 v)
    · intro h
      have hle : c ≤ ds.foldl min d :=
        (le_foldl_min ds d c).2 ⟨h d (Or.inl rfl), fun v hv => h v (Or.inr hv)⟩
      exact (min_eq_right hle).symm

theorem rlrop_step_patience (s : ReduceLROnPlateau) (c : ℚ) :
    (ReduceLROnPlateau.step s c).patience = s.patience := by
  unfold ReduceLROnPlateau.step ReduceLROnPlateau.decayCheck
  split <;> split <;> rfl

theorem rlrop_step_decayed_mono (s : ReduceLROnPlateau) (c : ℚ)
    (h : s.decayed = true) : (ReduceLROnPlateau.step s c).decayed = true := by
  unfold ReduceLROnPlateau.step ReduceLROnPlateau.decayCheck
  split <;> split <;> simp_all

theorem es_step_stop_iff (st : EarlyStopping) (c : ℚ) :
    (EarlyStopping.step st c).2 = true ↔
      improves c st.best = false ∧ st.patience ≤ st.counter + 1 := by
  unfold EarlyStopping.step
  by_cases h : improves c st.best = true
  · simp [h]
  · simp only [Bool.not_eq_true] at h
    simp [h]

theorem rlrop_step_decayed_back (s : ReduceLROnPlateau) (c : ℚ)
    (h : (ReduceLROnPlateau.step s c).decayed = false) : s.decayed = false := by
  by_cases hd : s.decayed = true
  · rw [rlrop_step_decayed_mono s c hd] at h
    exact absurd h (by simp)
  · simpa using hd

theorem sched_decays_on_halt (s : ReduceLROnPlateau) (st : EarlyStopping) (c : ℚ)
    (hb : s.best = st.best) (hn : s.numBad = st.counter)
    (hp : s.patience = st.patience / 2)
    (hstop : (EarlyStopping.step st c).2 = true) :
    (ReduceLROnPlateau.step s c).decayed = true := by
  rcases (es_step_stop_iff st c).1 hstop with ⟨hni, hpat⟩
  have hcond : s.patience < s.numBad + 1 := by
    rw [hp, hn]
    rcases Nat.eq_zero_or_pos st.patience with h0 | h0
    · simp [h0]
    · exact lt_of_lt_of_le (Nat.div_lt_self h0 (by norm_num)) hpat
  unfold ReduceLROnPlateau.step ReduceLROnPlateau.decayCheck
  rw [hb, hni]
  simp [hcond]

theorem sched_es_coupling (s : ReduceLROnPlateau) (st : EarlyStopping) (c : ℚ)
    (hb : s.best = st.best) (hn : s.numBad = st.counter)
    (hd : (ReduceLROnPlateau.step s c).decayed = false) :
    (ReduceLROnPlateau.step s c).best = ((EarlyStopping.step st c).1).best ∧
      (ReduceLROnPlateau.step s c).numBad = ((EarlyStopping.step st c).1).counter := by
  unfold ReduceLROnPlateau.step ReduceLROnPlateau.decayCheck at hd ⊢
  unfold EarlyStopping.step
  rw [hb] at hd ⊢
  by_cases h : improves c st.best = true
  · rw [h] at hd ⊢
    simp [Nat.not_lt_zero]
  · simp only [Bool.not_eq_true] at h
    rw [h] at hd ⊢
    simp only [Bool.false_eq_true, if_false] at hd ⊢
    by_cases hc : s.patience < s.numBad + 1
    · rw [if_pos hc] at hd
      exact absurd hd (by simp)
    · rw [if_neg hc]
      simp [hn]

/-! ### Projections of one epoch of the loop -/

theorem epochStep_params {P : Type} (tp : ℕ → P → P) (st : LoopState P) (e : ℕ)
    (i : EpochIn) : (epochStep tp st e i).params = tp e st.params := rfl

theorem epochStep_sched {P : Type} (tp : ℕ → P → P) (st : LoopState P) (e : ℕ)
    (i : EpochIn) : (epochStep tp st e i).sched = st.sched.step i.vl := rfl

theorem epochStep_es {P : Type} (tp : ℕ → P → P) (st : LoopState P) (e : ℕ)
    (i : EpochIn) : (epochStep tp st e i).es = (st.es.step i.vl).1 := rfl

theorem epochStep_train_losses {P : Type} (tp : ℕ → P → P) (st : LoopState P)
    (e : ℕ) (i : EpochIn) :
    (epochStep tp st e i).train_losses = st.train_losses ++ [i.tl] := rfl

theorem epochStep_valid_losses {P : Type} (tp : ℕ → P → P) (st : LoopState P)
    (e : ℕ) (i : EpochIn) :
    (epochStep tp st e i).valid_losses = st.valid_losses ++ [i.vl] := rfl

theorem epochStep_train_times {P : Type} (tp : ℕ → P → P) (st : LoopState P)
    (e : ℕ) (i : EpochIn) :
    (epochStep tp st e i).train_times = st.train_times ++ [i.dt] := rfl

theorem epochStep_checkpoints {P : Type} (tp : ℕ → P → P) (st : LoopState P)
    (e : ℕ) (i : EpochIn) :
    (epochStep tp st e i).checkpoints = st.checkpoints ++
      [({ epoch := e + 1, best_loss := (st.es.step i.vl).1.best },
        eqBest i.vl (st.es.step i.vl).1.best)] := rfl

theorem epochStep_bestWrites {P : Type} (tp : ℕ → P → P) (st : LoopState P)
    (e : ℕ) (i : EpochIn) :
    (epochStep tp st e i).bestWrites =
      (if eqBest i.vl (st.es.step i.vl).1.best then st.bestWrites ++ [e]
       else st.bestWrites) := rfl

theorem epochStep_metaWrites {P : Type} (tp : ℕ → P → P) (st : LoopState P)
    (e : ℕ) (i : EpochIn) :
    (epochStep tp st e i).metaWrites = st.metaWrites ++
      [{ epochs_trained := e
         best_loss := (st.es.step i.vl).1.best
         best_epoch := if eqBest i.vl (st.es.step i.vl).1.best then e
                       else st.best_epoch
         train_loss_history := st.train_losses ++ [i.tl]
         valid_loss_history := st.valid_losses ++ [i.vl]
         train_time_history := st.train_times }] := rfl

theorem epochStep_trace {P : Type} (tp : ℕ → P → P) (st : LoopState P) (e : ℕ)
    (i : EpochIn) : (epochStep tp st e i).trace = st.trace ++ evBlock e := rfl

theorem epochStep_stopped {P : Type} (tp : ℕ → P → P) (st : LoopState P) (e : ℕ)
    (i : EpochIn) : (epochStep tp st e i).stopped = (st.es.step i.vl).2 := rfl

/-! ### The loop invariant -/

theorem startState_inv {P : Type} (pat : ℕ) (tp : ℕ → P → P) (p0 : P)
    (lr gamma : ℚ) : Inv pat tp p0 (startState p0 pat lr gamma) := by
  constructor <;>
    simp [startState, minSoFar, EarlyStopping.start, ReduceLROnPlateau.start]

theorem getD_concat_length {α : Type} (l : List α) (a d : α) :
    (l ++ [a]).getD l.length d = a := by
  rw [List.getD_append_right _ _ _ _ (le_refl _)]
  simp

/-- One epoch of the loop preserves the invariant (the epoch counter fed
to the body is always one more than the number of completed epochs). -/
theorem epochStep_inv {P : Type} (pat : ℕ) (tp : ℕ → P → P) (p0 : P)
    (st : LoopState P) (e : ℕ) (i : EpochIn) (hInv : Inv pat tp p0 st)
    (he : e = st.valid_losses.length + 1) :
    Inv pat tp p0 (epochStep tp st e i) := by
  refine ⟨?_, ?_, ?_, ?_, ?_, ?_, ?_, ?_, ?_, ?_, ?_, ?_, ?_, ?_⟩
  · rw [epochStep_train_losses, epochStep_valid_losses]
    simp [hInv.len_tl]
  · rw [epochStep_train_times, epochStep_valid_losses]
    simp [hInv.len_tt]
  · rw [epochStep_checkpoints, epochStep_valid_losses]
    simp [hInv.len_ck]
  · rw [epochStep_metaWrites, epochStep_valid_losses]
    simp [hInv.len_mw]
  · rw [epochStep_es, epochStep_valid_losses, es_step_best, hInv.best_eq,
      minSoFar_append]
  · rw [epochStep_es, es_step_patience, hInv.pat_eq]
  · rw [epochStep_checkpoints, epochStep_valid_losses]
    intro j hj
    have hj1 : j < st.valid_losses.length + 1 := by simpa using hj
    rcases Nat.lt_succ_iff_lt_or_eq.1 hj1 with hj2 | hj2
    · rw [List.getD_append _ _ _ j (hInv.len_ck ▸ hj2),
        List.getD_append _ _ _ j hj2,
        List.take_append_of_le_length (Nat.succ_le_of_lt hj2)]
      exact hInv.ck j hj2
    · subst hj2
      have hck : st.checkpoints.length = st.valid_losses.length := hInv.len_ck
      rw [← hck, getD_concat_length]
      have htake : (st.valid_losses ++ [i.vl]).take (st.valid_losses.length + 1) =
          st.valid_losses ++ [i.vl] :=
        List.take_of_length_le (by simp)
      have hgd : (st.valid_losses ++ [i.vl]).getD st.valid_losses.length 0 = i.vl :=
        getD_concat_length _ _ _
      rw [hck, htake, hgd]
      refine ⟨?_, ?_, ?_⟩
      · dsimp only
        omega
      · dsimp only
        rw [es_step_best, hInv.best_eq, minSoFar_append]
      · dsimp only
        rw [es_step_best, hInv.best_eq, minSoFar_append]
  · rw [epochStep_metaWrites, epochStep_valid_losses]
    intro j hj
    have hj1 : j < st.valid_losses.length + 1 := by simpa using hj
    rcases Nat.lt_succ_iff_lt_or_eq.1 hj1 with hj2 | hj2
    · rw [List.getD_append _ _ _ j (hInv.len_mw ▸ hj2)]
      exact hInv.mw j hj2
    · subst hj2
      have hmw : st.metaWrites.length = st.valid_losses.length := hInv.len_mw
      rw [← hmw, getD_concat_length, hmw]
      refine ⟨?_, ?_, ?_, ?_⟩
      · dsimp only
        omega
      · dsimp only
        simp [hInv.len_tl]
      · dsimp only
        simp
      · dsimp only
        simp [hInv.len_tt]
  · rw [epochStep_bestWrites, epochStep_checkpoints, hInv.bw]
    have hlen : (st.checkpoints ++
        [(({ epoch := e + 1, best_loss := (st.es.step i.vl).1.best } : Checkpoint),
          eqBest i.vl (st.es.step i.vl).1.best)]).length =
        st.checkpoints.length + 1 := by simp
    rw [hlen, List.range_succ, List.filterMap_append]
    have hcongr : ∀ x ∈ List.range st.checkpoints.length,
        (fun j => if ((st.checkpoints ++
            [(({ epoch := e + 1, best_loss := (st.es.step i.vl).1.best } : Checkpoint),
              eqBest i.vl (st.es.step i.vl).1.best)]).getD j cdef).2 then
              some (j + 1) else none) x =
        (fun j => if (st.checkpoints.getD j cdef).2 then some (j + 1) else none)
          x := by
      intro x hx
      rw [List.mem_range] at hx
      simp only
      rw [List.getD_append _ _ _ x hx]
    rw [List.filterMap_congr hcongr]
    have hlast : (st.checkpoints ++
        [(({ epoch := e + 1, best_loss := (st.es.step i.vl).1.best } : Checkpoint),
          eqBest i.vl (st.es.step i.vl).1.best)]).getD st.checkpoints.length
          cdef =
        (({ epoch := e + 1, best_loss := (st.es.step i.vl).1.best } : Checkpoint),
          eqBest i.vl (st.es.step i.vl).1.best) := getD_concat_length _ _ _
    have he2 : e = st.checkpoints.length + 1 := by rw [hInv.len_ck]; exact he
    by_cases hflag : eqBest i.vl (st.es.step i.vl).1.best = true
    · simp [hflag, hlast, he2]
    · simp only [Bool.not_eq_true] at hflag
      simp [hflag, hlast]
  · rw [epochStep_trace, epochStep_valid_losses, hInv.tr, List.length_append]
    simp only [List.length_cons, List.length_nil, Nat.zero_add]
    rw [List.range'_concat, List.map_append, List.flatten_append]
    simp [he, Nat.add_comm]
  · rw [epochStep_params, epochStep_valid_losses, List.length_append]
    simp only [List.length_cons, List.length_nil, Nat.zero_add]
    rw [List.range'_concat, List.foldl_append, ← hInv.pa]
    simp [he, Nat.add_comm]
  · rw [epochStep_stopped, epochStep_sched]
    intro hstop
    by_cases hd : st.sched.decayed = true
    · exact rlrop_step_decayed_mono _ _ hd
    · simp only [Bool.not_eq_true] at hd
      rcases hInv.coupl hd with ⟨hb, hnb⟩
      have hp : st.sched.patience = st.es.patience / 2 := by
        rw [hInv.spat, hInv.pat_eq]
      exact sched_decays_on_halt _ _ _ hb hnb hp hstop
  · rw [epochStep_sched, epochStep_es]
    intro hd
    rcases hInv.coupl (rlrop_step_decayed_back _ _ hd) with ⟨hb, hnb⟩
    exact sched_es_coupling _ _ _ hb hnb hd
  · rw [epochStep_sched, rlrop_step_patience, hInv.spat]

theorem runFrom_inv {P : Type} (pat : ℕ) (tp : ℕ → P → P) (p0 : P) :
    ∀ (inputs : List EpochIn) (st : LoopState P) (e : ℕ),
      Inv pat tp p0 st → e = st.valid_losses.length + 1 →
      Inv pat tp p0 (runFrom tp st e inputs) := by
  intro inputs
  induction inputs with
  | nil =>
    intro st e hInv _
    rw [runFrom]
    exact hInv
  | cons i rest ih =>
    intro st e hInv he
    rw [runFrom]
    split
    · exact epochStep_inv pat tp p0 st e i hInv he
    · refine ih (epochStep tp st e i) (e + 1)
        (epochStep_inv pat tp p0 st e i hInv he) ?_
      rw [epochStep_valid_losses, List.length_append]
      simp [he]

/-- Every reachable final state of `run` satisfies the loop invariant. -/
theorem run_inv {P : Type} (tp : ℕ → P → P) (p0 : P) (pat : ℕ) (lr gamma : ℚ)
    (inputs : List EpochIn) :
    Inv pat tp p0 (run tp p0 pat lr gamma inputs) := by
  refine runFrom_inv pat tp p0 inputs (startState p0 pat lr gamma) 1
    (startState_inv pat tp p0 lr gamma) ?_
  simp [startState]

theorem runFrom_len {P : Type} (tp : ℕ → P → P) :
    ∀ (inputs : List EpochIn) (st : LoopState P) (e : ℕ),
      (runFrom tp st e inputs).valid_losses.length ≤
        st.valid_losses.length + inputs.length ∧
      ((runFrom tp st e inputs).stopped = false →
        (runFrom tp st e inputs).valid_losses.length =
          st.valid_losses.length + inputs.length) := by
  intro inputs
  induction inputs with
  | nil =>
    intro st e
    rw [runFrom]
    simp
  | cons i rest ih =>
    intro st e
    rw [runFrom]
    split
    · rename_i hstop
      constructor
      · rw [epochStep_valid_losses, List.length_append]
        simp only [List.length_cons, List.length_nil, List.length_singleton]
        omega
      · intro hfalse
        rw [hstop] at hfalse
        exact absurd hfalse (by simp)
    · rcases ih (epochStep tp st e i) (e + 1) with ⟨hle, heq⟩
      rw [epochStep_valid_losses, List.length_append] at hle heq
      simp only [List.length_singleton] at hle heq
      constructor
      · simp only [List.length_cons]
        omega
      · intro hfalse
        have := heq hfalse
        simp only [List.length_cons]
        omega

theorem foldl_min_or_mem (ds : List ℚ) :
    ∀ d : ℚ, ds.foldl min d = d ∨ ds.foldl min d ∈ ds := by
  induction ds with
  | nil => intro d; exact Or.inl rfl
  | cons e es ih =>
    intro d
    rcases ih (min d e) with h | h
    · rw [List.foldl_cons, h]
      rcases min_choice d e with hm | hm
    -- the running minimum is either the seed or one of the elements
      · exact Or.inl hm
      · exact Or.inr (by rw [hm]; exact List.mem_cons_self _ _)
    · exact Or.inr (List.mem_cons_of_mem _ h)

theorem minSoFar_le_mem (l : List ℚ) (v : ℚ) (hv : v ∈ l) :
    optLe (minSoFar l) (some v) = true := by
  cases l with
  | nil => cases hv
  | cons d ds =>
    have hm : minSoFar (d :: ds) = some (ds.foldl min d) := by
      simp [minSoFar, combineMin, foldl_combine_some]
    rw [hm]
    have hle : ds.foldl min d ≤ d ∧ ∀ w ∈ ds, ds.foldl min d ≤ w :=
      (le_foldl_min ds d (ds.foldl min d)).1 (le_refl _)
    rcases List.mem_cons.1 hv with h | h
    · subst h; simpa [optLe] using hle.1
    · simpa [optLe] using hle.2 v h

theorem minSoFar_mem (l : List ℚ) (hne : l ≠ []) :
    ∃ v ∈ l, minSoFar l = some v := by
  cases l with
  | nil => exact absurd rfl hne
  | cons d ds =>
    have hm : minSoFar (d :: ds) = some (ds.foldl min d) := by
      simp [minSoFar, combineMin, foldl_combine_some]
    rcases foldl_min_or_mem ds d with h | h
    · exact ⟨d, List.mem_cons_self _ _, by rw [hm, h]⟩
    · exact ⟨ds.foldl min d, List.mem_cons_of_mem _ h, hm⟩

theorem meter_foldl_sum_count (l : List (ℚ × ℕ)) :
    ∀ m0 : AverageMeter,
      (l.foldl (fun m p => m.update p.1 p.2) m0).sum =
        m0.sum + (l.map (fun p => p.1 * (p.2 : ℚ))).sum ∧
      (l.foldl (fun m p => m.update p.1 p.2) m0).count =
        m0.count + (l.map (fun p => p.2)).sum := by
  induction l with
  | nil => intro m0; simp
  | cons p ps ih =>
    intro m0
    rcases ih (m0.update p.1 p.2) with ⟨h1, h2⟩
    constructor
    · rw [List.foldl_cons, h1]
      simp [AverageMeter.update]
      ring
    · rw [List.foldl_cons, h2]
      simp [AverageMeter.update]
      omega

theorem meterFold_avg (l : List (ℚ × ℕ)) :
    (meterFold l).avg =
      (l.map (fun p => p.1 * (p.2 : ℚ))).sum /
        (l.map (fun p => (p.2 : ℚ))).sum := by
  rcases meter_foldl_sum_count l AverageMeter.empty with ⟨h1, h2⟩
  rw [AverageMeter.avg, meterFold, h1, h2]
  simp only [AverageMeter.empty, Nat.zero_add, Rat.zero_add, zero_add]
  congr 1
  rw [Nat.cast_list_sum, List.map_map]
  rfl

theorem validMeter_eq_meterFold {M A S : Type} (forward transform : M → A → S)
    (mseLoss : S → S → ℚ) (size1 : S → ℕ) (m : M) (batches : List (A × A)) :
    validMeter forward transform mseLoss size1 m batches =
      meterFold (batches.map
        (fun b => (mseLoss (forward m b.1) (transform m b.2),
          size1 (transform m b.2)))) := by
  unfold validMeter meterFold
  rw [List.foldl_map]

/-! ### Claim theorems -/

/-- C1 (amended): for every epoch of the run, the `is_best` flag passed to
the checkpoint persist call is true if and only if the validation loss of
that epoch is less than **or equal to** every previous validation loss
(i.e. it equals the running minimum — a tie with the previous best also
sets the flag), and the "best" checkpoint artifact is rewritten exactly on
those epochs; the flag is computed as equality of the validation loss of
the epoch with the best of the monitor after `step()`. -/
theorem c1_is_best_iff_running_min {P : Type} (tp : ℕ → P → P) (p0 : P)
    (pat : ℕ) (lr gamma : ℚ) (inputs : List EpochIn) (j : ℕ)
    (hj : j < (run tp p0 pat lr gamma inputs).checkpoints.length) :
    (((run tp p0 pat lr gamma inputs).checkpoints.getD j cdef).2 = true ↔
      ∀ v ∈ (run tp p0 pat lr gamma inputs).valid_losses.take j,
        (run tp p0 pat lr gamma inputs).valid_losses.getD j 0 ≤ v) ∧
    ((j + 1) ∈ (run tp p0 pat lr gamma inputs).bestWrites ↔
      ((run tp p0 pat lr gamma inputs).checkpoints.getD j cdef).2 = true) := by
  have hInv := run_inv tp p0 pat lr gamma inputs
  have hjv : j < (run tp p0 pat lr gamma inputs).valid_losses.length := by
    rw [← hInv.len_ck]
    exact hj
  rcases hInv.ck j hjv with ⟨_, _, hflag⟩
  have htake : (run tp p0 pat lr gamma inputs).valid_losses.take (j + 1) =
      (run tp p0 pat lr gamma inputs).valid_losses.take j ++
        [(run tp p0 pat lr gamma inputs).valid_losses.getD j 0] := by
    rw [List.take_succ, List.getD_eq_getElem _ _ hjv]
    congr
    rw [List.getElem?_eq_getElem hjv]
    rfl
  constructor
  · rw [hflag, htake, eqBest_minSoFar_iff]
  · rw [hInv.bw]
    simp only [List.mem_filterMap, List.mem_range]
    constructor
    · rintro ⟨i, hi, hsome⟩
      by_cases hf : ((run tp p0 pat lr gamma inputs).checkpoints.getD i cdef).2 = true
      · rw [if_pos hf] at hsome
        have hij : i = j := by
          injection hsome with h
          omega
        subst hij
        exact hf
      · rw [if_neg hf] at hsome
        exact absurd hsome (by simp)
    · intro hf
      exact ⟨j, hj, by rw [if_pos hf]⟩

/-- C1 witness: at the run with validation losses `[1, 1/2]`, epoch 2 is
flagged best, its loss is below the only previous loss, and the "best"
artifact was rewritten on epoch 2. -/
theorem c1_witness :
    1 < (run tpUnit () 20 1 g1 insTwo).checkpoints.length ∧
    ((((run tpUnit () 20 1 g1 insTwo).checkpoints.getD 1 cdef).2 = true ↔
      ∀ v ∈ (run tpUnit () 20 1 g1 insTwo).valid_losses.take 1,
        (run tpUnit () 20 1 g1 insTwo).valid_losses.getD 1 0 ≤ v) ∧
     ((1 + 1) ∈ (run tpUnit () 20 1 g1 insTwo).bestWrites ↔
      ((run tpUnit () 20 1 g1 insTwo).checkpoints.getD 1 cdef).2 = true)) :=
  ⟨by decide, c1_is_best_iff_running_min tpUnit () 20 1 g1 insTwo 1 (by decide)⟩

/-- C1 counterexample: with validation losses `[1, 1]`, the loss of epoch
2 ties the loss of epoch 1 — it is *not* strictly less than every
previous loss — yet the `is_best` flag passed to the persist call on
epoch 2 is true (and the "best" artifact is rewritten).  So "is_best iff
strictly less than every previous validation loss" is false on the code. -/
theorem c1_counterexample :
    ((run tpUnit () 20 1 g1 insTie).checkpoints.getD 1 cdef).2 = true ∧
    (2 ∈ (run tpUnit () 20 1 g1 insTie).bestWrites) ∧
    ¬ ((run tpUnit () 20 1 g1 insTie).valid_losses.getD 1 0 <
       (run tpUnit () 20 1 g1 insTie).valid_losses.getD 0 0) :=
  ⟨by decide, by decide, by decide⟩

/-- C2 (amended): after every epoch, the persisted `epochs_trained` equals
the index of the epoch just completed, while the checkpoint record written
in the same iteration stores `epoch + 1` — one **more** than
`epochs_trained`, not the same value. -/
theorem c2_epochs_trained_off_by_one {P : Type} (tp : ℕ → P → P) (p0 : P)
    (pat : ℕ) (lr gamma : ℚ) (inputs : List EpochIn) (j : ℕ)
    (hj : j < (run tp p0 pat lr gamma inputs).metaWrites.length) :
    ((run tp p0 pat lr gamma inputs).metaWrites.getD j mdef).epochs_trained =
      j + 1 ∧
    ((run tp p0 pat lr gamma inputs).checkpoints.getD j cdef).1.epoch =
      ((run tp p0 pat lr gamma inputs).metaWrites.getD j mdef).epochs_trained
        + 1 := by
  have hInv := run_inv tp p0 pat lr gamma inputs
  have hjv : j < (run tp p0 pat lr gamma inputs).valid_losses.length := by
    rw [← hInv.len_mw]
    exact hj
  rcases hInv.mw j hjv with ⟨h1, _, _, _⟩
  rcases hInv.ck j hjv with ⟨h2, _, _⟩
  refine ⟨h1, ?_⟩
  rw [h1, h2]

/-- C2 witness: after the single epoch of a one-epoch run, the metadata
says `epochs_trained = 1` and the checkpoint record says `epoch = 2`. -/
theorem c2_witness :
    0 < (run tpUnit () 3 1 g1 insOne).metaWrites.length ∧
    (((run tpUnit () 3 1 g1 insOne).metaWrites.getD 0 mdef).epochs_trained =
      0 + 1 ∧
    ((run tpUnit () 3 1 g1 insOne).checkpoints.getD 0 cdef).1.epoch =
      ((run tpUnit () 3 1 g1 insOne).metaWrites.getD 0 mdef).epochs_trained
        + 1) :=
  ⟨by decide, c2_epochs_trained_off_by_one tpUnit () 3 1 g1 insOne 0 (by decide)⟩

/-- C2 counterexample: already after epoch 1, the `epoch` recorded in the
checkpoint (`epoch + 1 = 2`) differs from the persisted `epochs_trained`
(`1`), so "epochs_trained ... matches the epoch recorded in the checkpoint
record written to disk in the same iteration" is false on the code. -/
theorem c2_counterexample :
    ((run tpUnit () 3 1 g1 insOne).checkpoints.getD 0 cdef).1.epoch ≠
      ((run tpUnit () 3 1 g1 insOne).metaWrites.getD 0 mdef).epochs_trained :=
  by decide

/-- C3: the `step` of the monitor uses a strict-inequality improvement test
(a tie is non-improvement: it increments the counter, and halts exactly
when the counter reaches `patience`), and on the spec scenario —
validation losses 1.0, 0.9, 0.95, 0.95, 0.95 with `patience = 3` — the
loop halts after epoch 5 with `best = 0.9` and `best_epoch = 2`. -/
theorem c3_monitor_strict_and_scenario :
    (∀ (st : EarlyStopping) (c : ℚ), improves c st.best = false →
      EarlyStopping.step st c =
        ({ st with counter := st.counter + 1 },
          decide (st.patience ≤ st.counter + 1))) ∧
    (∀ b : ℚ, improves b (some b) = false) ∧
    (∀ (st : EarlyStopping) (c : ℚ), improves c st.best = true →
      EarlyStopping.step st c =
        ({ st with best := some c, counter := 0 }, false)) ∧
    (mkRat 9 10 = (9 : ℚ) / 10 ∧
     (run tpUnit () 3 1 g1 insScenario).stopped = true ∧
     (run tpUnit () 3 1 g1 insScenario).valid_losses.length = 5 ∧
     (run tpUnit () 3 1 g1 insScenario).es.best = some (mkRat 9 10) ∧
     (run tpUnit () 3 1 g1 insScenario).best_epoch = 2) := by
  refine ⟨?_, ?_, ?_, by norm_num [mkRat, Rat.normalize], by decide, by decide,
    by decide, by decide⟩
  · intro st c h
    simp [EarlyStopping.step, h]
  · intro b
    simp [improves]
  · intro st c h
    simp [EarlyStopping.step, h]

/-- C3 witness: a tied loss does not improve, and `step` on it increments
the counter without halting (patience 3, counter 0). -/
theorem c3_witness :
    improves 1 (some 1) = false ∧
    EarlyStopping.step ⟨some 1, 0, 3⟩ 1 = (⟨some 1, 1, 3⟩, false) :=
  ⟨by decide, c3_monitor_strict_and_scenario.1 ⟨some 1, 0, 3⟩ 1 (by decide)⟩

/-- C4: every entry of the clamped normalization scale vector is at least
`1e-4` times the maximum entry of the raw scale vector, for every input
scale vector (including one with an all-zero channel). -/
theorem c4_scale_clamped (scale : List ℚ) :
    ∀ v ∈ safe_input_scale scale, 1 / 10000 * npMax scale ≤ v := by
  intro v hv
  rcases List.mem_map.1 hv with ⟨s, _, rfl⟩
  exact le_max_right _ _

/-- C4 witness: on the vector `[0, 2]` (an all-zero channel plus a live
one), the clamped entry `1/5000` is in the output and meets the floor
`1e-4 * 2`. -/
theorem c4_witness :
    (mkRat 1 5000 ∈ safe_input_scale [0, 2]) ∧
    1 / 10000 * npMax [0, 2] ≤ mkRat 1 5000 :=
  ⟨by norm_num [safe_input_scale, npMax],
   c4_scale_clamped [0, 2] (mkRat 1 5000)
     (by norm_num [safe_input_scale, npMax])⟩

/-- C5: the `best` of the monitor is initialized to `+infinity` (modelled as
`none`), never increases across `step()` calls, and after each epoch of
the run equals exactly the running minimum of all validation losses fed to
the monitor so far (`minSoFar` really is the minimum: it is a lower bound
of, and attained by, the observed losses). -/
theorem c5_best_is_running_min {P : Type} (tp : ℕ → P → P) (p0 : P)
    (pat : ℕ) (lr gamma : ℚ) (inputs : List EpochIn) :
    (run tp p0 pat lr gamma inputs).es.best =
      minSoFar (run tp p0 pat lr gamma inputs).valid_losses ∧
    (∀ (st : EarlyStopping) (c : ℚ),
      optLe ((EarlyStopping.step st c).1.best) st.best = true) ∧
    (EarlyStopping.start pat).best = none ∧
    (∀ (l : List ℚ) (v : ℚ), v ∈ l → optLe (minSoFar l) (some v) = true) ∧
    (∀ l : List ℚ, l ≠ [] → ∃ v ∈ l, minSoFar l = some v) :=
  ⟨(run_inv tp p0 pat lr gamma inputs).best_eq,
   es_step_best_nonincreasing, rfl, minSoFar_le_mem, minSoFar_mem⟩

/-- C6: the event trace of the run is exactly the per-epoch block
train → validate → scheduler step → monitor step → persist, concatenated
over the executed epochs 1..k in order; the metadata persist happens
exactly once per executed epoch (including the halting one); and the loop
runs every provided epoch unless the monitor halts it. -/
theorem c6_epoch_order {P : Type} (tp : ℕ → P → P) (p0 : P) (pat : ℕ)
    (lr gamma : ℚ) (inputs : List EpochIn) :
    (run tp p0 pat lr gamma inputs).trace =
      ((List.range' 1 (run tp p0 pat lr gamma inputs).valid_losses.length).map
        evBlock).flatten ∧
    (run tp p0 pat lr gamma inputs).metaWrites.length =
      (run tp p0 pat lr gamma inputs).valid_losses.length ∧
    (run tp p0 pat lr gamma inputs).valid_losses.length ≤ inputs.length ∧
    ((run tp p0 pat lr gamma inputs).stopped = false →
      (run tp p0 pat lr gamma inputs).valid_losses.length = inputs.length) := by
  have hInv := run_inv tp p0 pat lr gamma inputs
  have hlen := runFrom_len tp inputs (startState p0 pat lr gamma) 1
  refine ⟨hInv.tr, hInv.len_mw.symm ▸ rfl, ?_, ?_⟩
  · have := hlen.1
    simpa [run, startState] using this
  · intro h
    have := hlen.2 (by simpa [run] using h)
    simpa [run, startState] using this

/-- C6 witness: a run whose single epoch improves does not stop early and
executes every provided epoch. -/
theorem c6_witness :
    (run tpUnit () 3 1 g1 insOne).stopped = false ∧
    (run tpUnit () 3 1 g1 insOne).valid_losses.length = insOne.length :=
  ⟨by decide, (c6_epoch_order tpUnit () 3 1 g1 insOne).2.2.2 (by decide)⟩

/-- C7: the validation pass is a pure read of the model (it produces only
a number, never a new parameter state — across the whole run the parameter
state is the fold of the train passes alone), and its result is the
weighted epoch mean: each per-batch loss weighted by `Y.size(1)`, summed,
divided by the summed weights. -/
theorem c7_valid_weighted_mean {M A S P : Type} (forward transform : M → A → S)
    (mseLoss : S → S → ℚ) (size1 : S → ℕ) (m : M) (batches : List (A × A))
    (tp : ℕ → P → P) (p0 : P) (pat : ℕ) (lr gamma : ℚ)
    (inputs : List EpochIn) :
    valid forward transform mseLoss size1 m batches =
      (batches.map (fun b => mseLoss (forward m b.1) (transform m b.2) *
        (size1 (transform m b.2) : ℚ))).sum /
      (batches.map (fun b => (size1 (transform m b.2) : ℚ))).sum ∧
    (run tp p0 pat lr gamma inputs).params =
      (List.range' 1 (run tp p0 pat lr gamma inputs).valid_losses.length).foldl
        (fun p e => tp e p) p0 := by
  constructor
  · rw [valid, validMeter_eq_meterFold, meterFold_avg]
    simp only [List.map_map]
    rfl
  · exact (run_inv tp p0 pat lr gamma inputs).pa

/-- C8: the Average Meter returns 4.0 after `update(3.0); update(5.0)`,
3.5 after `update(2.0, weight=3); update(8.0, weight=1)`, and in general
its average is the weighted sum of values divided by the sum of
weights. -/
theorem c8_meter_weighted_average :
    ((AverageMeter.empty.update 3 1).update 5 1).avg = 4 ∧
    ((AverageMeter.empty.update 2 3).update 8 1).avg = 7 / 2 ∧
    ∀ l : List (ℚ × ℕ), (meterFold l).avg =
      (l.map (fun p => p.1 * (p.2 : ℚ))).sum /
        (l.map (fun p => (p.2 : ℚ))).sum :=
  ⟨by norm_num [AverageMeter.empty, AverageMeter.update, AverageMeter.avg],
   by norm_num [AverageMeter.empty, AverageMeter.update, AverageMeter.avg],
   meterFold_avg⟩

/-- C9: the scheduler is constructed with plateau patience
`args.patience // 2`, and on every run in which the early-stopping monitor
halts, the learning rate has already been decayed by the time of the halt
(the scheduler step precedes the monitor step within the epoch). -/
theorem c9_lr_decays_before_halt {P : Type} (tp : ℕ → P → P) (p0 : P)
    (pat : ℕ) (lr gamma : ℚ) (inputs : List EpochIn) :
    (ReduceLROnPlateau.start pat lr gamma).patience = pat / 2 ∧
    ((run tp p0 pat lr gamma inputs).stopped = true →
      (run tp p0 pat lr gamma inputs).sched.decayed = true) :=
  ⟨rfl, (run_inv tp p0 pat lr gamma inputs).halted⟩

/-- C9 witness: with `patience = 1` and tied losses `[1, 1]` the monitor
halts on epoch 2, and the learning rate has indeed decayed. -/
theorem c9_witness :
    (run tpUnit () 1 1 g1 insTie).stopped = true ∧
    (run tpUnit () 1 1 g1 insTie).sched.decayed = true :=
  ⟨by decide, (c9_lr_decays_before_halt tpUnit () 1 1 g1 insTie).2 (by decide)⟩

/-- C10: the metadata record written at the end of epoch N (the (N-1)-th
write, 0-indexed j = N-1) has train/valid loss histories of exactly N
entries but a train-time history of exactly N-1 entries — one fewer than
`epochs_trained` — because the elapsed time of the epoch is appended only
after the metadata file is written; hence the elapsed time of the final epoch is
never persisted. -/
theorem c10_time_history_lags {P : Type} (tp : ℕ → P → P) (p0 : P)
    (pat : ℕ) (lr gamma : ℚ) (inputs : List EpochIn) (j : ℕ)
    (hj : j < (run tp p0 pat lr gamma inputs).metaWrites.length) :
    ((run tp p0 pat lr gamma inputs).metaWrites.getD j
        mdef).train_loss_history.length = j + 1 ∧
    ((run tp p0 pat lr gamma inputs).metaWrites.getD j
        mdef).valid_loss_history.length = j + 1 ∧
    ((run tp p0 pat lr gamma inputs).metaWrites.getD j
        mdef).train_time_history.length + 1 =
      ((run tp p0 pat lr gamma inputs).metaWrites.getD j
        mdef).epochs_trained := by
  have hInv := run_inv tp p0 pat lr gamma inputs
  have hjv : j < (run tp p0 pat lr gamma inputs).valid_losses.length := by
    rw [← hInv.len_mw]
    exact hj
  rcases hInv.mw j hjv with ⟨h1, h2, h3, h4⟩
  refine ⟨h2, h3, ?_⟩
  rw [h1, h4]

/-- C10 witness: the first metadata write of a run has one train loss, one
validation loss and zero recorded epoch times. -/
theorem c10_witness :
    0 < (run tpUnit () 3 1 g1 insOne).metaWrites.length ∧
    (((run tpUnit () 3 1 g1 insOne).metaWrites.getD 0
        mdef).train_loss_history.length = 0 + 1 ∧
    ((run tpUnit () 3 1 g1 insOne).metaWrites.getD 0
        mdef).valid_loss_history.length = 0 + 1 ∧
    ((run tpUnit () 3 1 g1 insOne).metaWrites.getD 0
        mdef).train_time_history.length + 1 =
      ((run tpUnit () 3 1 g1 insOne).metaWrites.getD 0
        mdef).epochs_trained) :=
  ⟨by decide, c10_time_history_lags tpUnit () 3 1 g1 insOne 0 (by decide)⟩

end OUX
